import Mathlib

/-!
A verification development for the tiubot expense tracker.

The development shallowly embeds the two core components of the repository:

* `parseExpense` (src/parser.ts): the deterministic Vietnamese expense-text
  parser, including a faithful backtracking model of the JavaScript regex
  `^(.+?)\s+([\d,.]+)\s*(k|tr|m|đ|d)?(\d+)?(?:\s+(.*))?$` with the `i` flag,
  and of the numeric resolution steps (compound form, thousand-separator
  disambiguation, suffix multipliers).
* the ledger row composer inside `GoogleSheetsService.addExpense`
  (src/google-sheets.service.ts, 3-column variant; and the 4-column
  month-partitioned variant), plus `columnIndexToLetter` / `getMonthRange`.

JavaScript numbers are modelled as exact rationals extended with a positive
infinity (`JsNum`), with overflow to infinity at the IEEE-754 double rounding
threshold `2^1024 - 2^970`; `NaN` is modelled as `Option.none` at each point
where the source can produce it.  Strings are modelled as `List Char`
internally, converting from `String` at the API boundary.
-/

namespace Tiubot

set_option maxRecDepth 6000

/-! ### JavaScript character classes -/

/-- JS `\s` (also the set trimmed by `String.prototype.trim`): space, tab,
line feed, vertical tab, form feed, carriage return, NBSP, Ogham space mark,
the U+2000-U+200A spaces, the line and paragraph separators, narrow NBSP,
mathematical space, ideographic space and the BOM. -/
def isJsWs (c : Char) : Bool :=
  c.toNat = 0x20 ∨ c.toNat = 0x09 ∨ c.toNat = 0x0a ∨ c.toNat = 0x0b ∨
  c.toNat = 0x0c ∨ c.toNat = 0x0d ∨ c.toNat = 0xa0 ∨ c.toNat = 0x1680 ∨
  (0x2000 ≤ c.toNat ∧ c.toNat ≤ 0x200a) ∨
  c.toNat = 0x2028 ∨ c.toNat = 0x2029 ∨ c.toNat = 0x202f ∨ c.toNat = 0x205f ∨
  c.toNat = 0x3000 ∨ c.toNat = 0xfeff

/-- JS line terminators; the regex `.` matches any character except these. -/
def isLineTerm (c : Char) : Bool :=
  c.toNat = 0x0a ∨ c.toNat = 0x0d ∨ c.toNat = 0x2028 ∨ c.toNat = 0x2029

/-- The character class `[\d,.]` of the amount literal. -/
def isNumChar (c : Char) : Bool :=
  c.isDigit ∨ c = ',' ∨ c = '.'

/-- Case-mapping pairs (lower, upper) relevant to this code base: the ASCII
letters together with the Vietnamese letters that occur in the source
literals (`đ` of the currency suffix, `ậ` of `nhận`, `ă`, `ê`, `ô`, `ư`).
All other characters are treated as caseless. -/
def casePairs : List (Char × Char) :=
  [('a', 'A'), ('b', 'B'), ('c', 'C'), ('d', 'D'), ('e', 'E'), ('f', 'F'),
   ('g', 'G'), ('h', 'H'), ('i', 'I'), ('j', 'J'), ('k', 'K'), ('l', 'L'),
   ('m', 'M'), ('n', 'N'), ('o', 'O'), ('p', 'P'), ('q', 'Q'), ('r', 'R'),
   ('s', 'S'), ('t', 'T'), ('u', 'U'), ('v', 'V'), ('w', 'W'), ('x', 'X'),
   ('y', 'Y'), ('z', 'Z'), ('đ', 'Đ'), ('ậ', 'Ậ'), ('ă', 'Ă'), ('ê', 'Ê'),
   ('ô', 'Ô'), ('ư', 'Ư')]

/-- Model of `String.prototype.toUpperCase` on a single character (and of the
canonicalisation used by case-insensitive regex matching). -/
def jsUpperChar (c : Char) : Char :=
  (casePairs.lookup c).getD c

/-- Model of `String.prototype.toLowerCase` on a single character. -/
def jsLowerChar (c : Char) : Char :=
  ((casePairs.map Prod.swap).lookup c).getD c

/-- Case-insensitive character comparison, as performed by a regex with the
`i` flag: both characters are canonicalised to upper case. -/
def jsCanonEq (a b : Char) : Bool :=
  jsUpperChar a = jsUpperChar b

def toLowerL (l : List Char) : List Char := l.map jsLowerChar

/-- JS `String.prototype.trimEnd` over the `isJsWs` set. -/
def trimEndL : List Char → List Char
  | [] => []
  | c :: cs =>
    let r := trimEndL cs
    if r.isEmpty ∧ isJsWs c then [] else c :: r

/-- JS `String.prototype.trim`: drop `isJsWs` characters at both ends. -/
def trimL (l : List Char) : List Char :=
  trimEndL (l.dropWhile isJsWs)

/-! ### JavaScript numbers

Numbers are exact rationals plus a positive infinity.  A decimal literal
whose exact value reaches the IEEE-754 binary64 rounding threshold
`2^1024 - 2^970` converts to `+Infinity`; the model keeps all smaller values
exact (rounding below the threshold is not modelled, which is faithful for
every amount stated in the specification, all of which convert exactly).
`NaN` is modelled as `Option.none` at each point the source can produce it.

Because every value flowing through the parser is an exact decimal, the
computations are carried out on a numerator/power-of-ten pair `Dec` in `ℕ`
(which the kernel can evaluate), while the statements about them use the
rational value `decToQ`. -/

/-- Overflow threshold of IEEE-754 binary64: exact values `≥ 2^1024 - 2^970`
round to `+Infinity`. -/
def floatInfThreshold : ℚ := 2 ^ 1024 - 2 ^ 970

/-- The same threshold as a natural number. -/
def floatInfThresholdN : ℕ := 2 ^ 1024 - 2 ^ 970

/-- A JavaScript number that is known not to be `NaN`: either a finite value
(modelled exactly as a rational) or `+Infinity`. -/
inductive JsNum where
  | fin (q : ℚ)
  | inf
  deriving DecidableEq, Repr

/-- An exact decimal `num / 10 ^ exp`: the form of every value `parseFloat`
produces in this parser. -/
structure Dec where
  num : ℕ
  exp : ℕ
  deriving DecidableEq, Repr

/-- The rational value of an exact decimal. -/
def decToQ (d : Dec) : ℚ :=
  (d.num : ℚ) / 10 ^ d.exp

/-- Whether an exact decimal reaches the binary64 overflow threshold
(`num / 10 ^ exp ≥ threshold`, as a natural-number comparison). -/
def decOverflows (d : Dec) : Bool :=
  floatInfThresholdN * 10 ^ d.exp ≤ d.num

/-- Convert an exact nonnegative decimal to a `JsNum`, overflowing to
infinity at the binary64 threshold. -/
def mkJsNum (d : Dec) : JsNum :=
  if decOverflows d then JsNum.inf else JsNum.fin (decToQ d)

/-- Multiplication of a JS number by a positive constant (the suffix
multipliers `1000` and `1000000`), overflowing to infinity. -/
def jsMulConst (c : ℚ) : JsNum → JsNum
  | JsNum.inf => JsNum.inf
  | JsNum.fin q => if floatInfThreshold ≤ q * c then JsNum.inf else JsNum.fin (q * c)

/-- Numeric value of a digit string (most significant first). -/
def digitsVal (l : List Char) : ℕ :=
  l.foldl (fun n c => 10 * n + (c.toNat - 48)) 0

/-- Model of JS `parseFloat` as an exact decimal, restricted to its use
sites in `parseExpense`: the argument consists only of decimal digits and
`.` characters.  On such strings `parseFloat` parses the longest prefix of
the shape `digits [. digits]` or `. digits` and returns `NaN` (here `none`)
when no such prefix exists (the empty string or a lone `.`). -/
def jsParseFloatD (l : List Char) : Option Dec :=
  let ds1 := l.takeWhile Char.isDigit
  let rest := l.drop ds1.length
  if ds1.isEmpty then
    match l with
    | '.' :: rest2 =>
      let ds2 := rest2.takeWhile Char.isDigit
      if ds2.isEmpty then none
      else some ⟨digitsVal ds2, ds2.length⟩
    | _ => none
  else
    match rest with
    | '.' :: rest2 =>
      let ds2 := rest2.takeWhile Char.isDigit
      some ⟨digitsVal ds1 * 10 ^ ds2.length + digitsVal ds2, ds2.length⟩
    | _ => some ⟨digitsVal ds1, 0⟩

/-- JS `parseFloat` as a JS number, including the overflow to infinity. -/
def jsParseFloat (l : List Char) : Option JsNum :=
  (jsParseFloatD l).map mkJsNum

/-! ### Numeric resolution (src/parser.ts lines 42-66) -/

/-- `amountStr.replace(/[,.]/g, ...)` deleting every separator. -/
def stripSeps (l : List Char) : List Char :=
  l.filter (fun c => ¬ (c = ',' ∨ c = '.'))

/-- `amountStr.replace(/,/g, ...)` turning each comma into a dot. -/
def commasToDots (l : List Char) : List Char :=
  l.map (fun c => if c = ',' then '.' else c)

/-- `amountStr.includes(.) || amountStr.includes(,)`. -/
def hasSep (l : List Char) : Bool :=
  l.any (fun c => c = '.' ∨ c = ',')

/-- One or more groups `[.,]\d{3}`, consuming the whole list: the repeated
part of the thousands-grouping test. -/
def thousandsGroups : List Char → Bool
  | s :: a :: b :: c :: rest =>
    (s = '.' || s = ',') && a.isDigit && b.isDigit && c.isDigit &&
      (rest.isEmpty || thousandsGroups rest)
  | _ => false

/-- The test `/^\d{1,3}([.,]\d{3})+$/` deciding thousands grouping. -/
def thousandsShape (l : List Char) : Bool :=
  match l with
  | a :: rest =>
    a.isDigit &&
      (thousandsGroups rest ||
        match rest with
        | b :: rest2 =>
          b.isDigit &&
            (thousandsGroups rest2 ||
              match rest2 with
              | c :: rest3 => c.isDigit && thousandsGroups rest3
              | [] => false)
        | [] => false)
  | [] => false

/-- The exact decimal base value of the numeric literal before the suffix
multiplier (src/parser.ts lines 44-60): compound form when a suffix and a
remainder are both present, otherwise separator disambiguation. -/
def resolveBaseD (amountStr : List Char) (suffixPresent : Bool)
    (remainder : Option (List Char)) : Option Dec :=
  match remainder with
  | some rem =>
    if suffixPresent then
      jsParseFloatD (stripSeps amountStr ++ '.' :: rem)
    else
      jsParseFloatD (stripSeps amountStr)
  | none =>
    if suffixPresent ∧ hasSep amountStr then
      if thousandsShape amountStr then jsParseFloatD (stripSeps amountStr)
      else jsParseFloatD (commasToDots amountStr)
    else
      jsParseFloatD (stripSeps amountStr)

/-- The base value as a JS number (the `amount` variable of the source right
before the multiplier step). -/
def resolveBase (amountStr : List Char) (suffixPresent : Bool)
    (remainder : Option (List Char)) : Option JsNum :=
  (resolveBaseD amountStr suffixPresent remainder).map mkJsNum

/-- The suffix multiplier (src/parser.ts lines 62-66), applied to the
lower-cased suffix: `k` scales by 1000, `tr`/`m` by 1000000, anything else
(including `đ`/`d` and no suffix) leaves the value unchanged. -/
def suffixMult (suffix : Option (List Char)) : ℚ :=
  match suffix with
  | some s => if s = ['k'] then 1000 else if s = ['t', 'r'] ∨ s = ['m'] then 1000000 else 1
  | none => 1

/-- The suffix multiplier as a natural number. -/
def suffixMultN (suffix : Option (List Char)) : ℕ :=
  match suffix with
  | some s => if s = ['k'] then 1000 else if s = ['t', 'r'] ∨ s = ['m'] then 1000000 else 1
  | none => 1

/-- Amount resolution: base value followed by the suffix multiplier.  The
`suffix` argument is the already lower-cased capture.  Since every
multiplier is ≥ 1, a base that already overflowed stays overflowed after
scaling, so the two rounding points of the source (`parseFloat` and `amount *=`)
collapse into a single threshold test on the scaled decimal; the theorem
`resolveAmount_spec` below restores the shape of the source. -/
def resolveAmount (amountStr : List Char) (suffix : Option (List Char))
    (remainder : Option (List Char)) : Option JsNum :=
  (resolveBaseD amountStr suffix.isSome remainder).map fun d =>
    mkJsNum ⟨d.num * suffixMultN suffix, d.exp⟩

/-! ### The structural regex (src/parser.ts line 31)

A faithful backtracking model of
`^(.+?)\s+([\d,.]+)\s*(k|tr|m|đ|d)?(\d+)?(?:\s+(.*))?$` with the `i` flag,
specialised to this pattern: each stage consumes from the remaining input in
the same order a backtracking engine does (lazy `.+?` shortest first, greedy
quantifiers longest first, alternatives left to right), and the first
successful path wins. -/

/-- Capture groups 2-5 of the pattern: the numeric literal, the optional
suffix (as captured, before lower-casing), the optional compound remainder
and the optional note. -/
structure TailMatch where
  amountStr : List Char
  suffix : Option (List Char)
  remainder : Option (List Char)
  note : Option (List Char)
  deriving DecidableEq, Repr

/-- A full match of the pattern: group 1 (the category) and the tail. -/
structure RawMatch where
  category : List Char
  tail : TailMatch
  deriving DecidableEq, Repr

/-- `(.*)$` — the greedy dot consumes the whole rest, so this succeeds
exactly when no line terminator remains. -/
def matchNoteTail (rest : List Char) : Option (List Char) :=
  if rest.all (fun c => ¬ isLineTerm c) then some rest else none

/-- Greedy continuation of `\s+(.*)$` after at least one whitespace
character: extend the whitespace run as far as possible, backtracking to
shorter runs on failure. -/
def matchNoteWs (rest : List Char) : Option (List Char) :=
  match rest with
  | c :: rs =>
    if isJsWs c then
      match matchNoteWs rs with
      | some r => some r
      | none => matchNoteTail rest
    else matchNoteTail rest
  | [] => matchNoteTail []

/-- `(?:\s+(.*))?$` — try the optional note group first, otherwise require
the end of the input with the group unset. -/
def matchNote (rest : List Char) : Option (Option (List Char)) :=
  match rest with
  | c :: rs =>
    if isJsWs c then
      match matchNoteWs rs with
      | some n => some (some n)
      | none => none
    else none
  | [] => some none

/-- Greedy continuation of `(\d+)` with at least one digit consumed
(in `accRev`, reversed): longest run first, backtracking to shorter runs. -/
def matchRemDigits (accRev : List Char) (rest : List Char) :
    Option (Option (List Char) × Option (List Char)) :=
  match rest with
  | c :: rs =>
    if c.isDigit then
      match matchRemDigits (c :: accRev) rs with
      | some r => some r
      | none => (matchNote rest).map (fun n => (some accRev.reverse, n))
    else (matchNote rest).map (fun n => (some accRev.reverse, n))
  | [] => (matchNote []).map (fun n => (some accRev.reverse, n))

/-- `(\d+)?(?:\s+(.*))?$` — returns the remainder and note groups. -/
def matchRem (rest : List Char) :
    Option (Option (List Char) × Option (List Char)) :=
  match rest with
  | c :: rs =>
    if c.isDigit then
      match matchRemDigits [c] rs with
      | some r => some r
      | none => (matchNote rest).map (fun n => (none, n))
    else (matchNote rest).map (fun n => (none, n))
  | [] => (matchNote []).map (fun n => (none, n))

/-- `(k|tr|m|đ|d)?(\d+)?(?:\s+(.*))?$` — the suffix alternatives are tried
left to right, case-insensitively, falling through to the next alternative
(and finally to no suffix) whenever the continuation fails.  Returns the
suffix, remainder and note groups. -/
def matchSuf (rest : List Char) :
    Option (Option (List Char) × Option (List Char) × Option (List Char)) :=
  let altOne : Char → Option (Option (List Char) × Option (List Char) × Option (List Char)) :=
    fun pat =>
      match rest with
      | c :: rs =>
        if jsCanonEq c pat then (matchRem rs).map (fun rn => (some [c], rn)) else none
      | [] => none
  let altTr : Option (Option (List Char) × Option (List Char) × Option (List Char)) :=
    match rest with
    | c1 :: c2 :: rs =>
      if jsCanonEq c1 't' && jsCanonEq c2 'r' then
        (matchRem rs).map (fun rn => (some [c1, c2], rn))
      else none
    | _ => none
  (altOne 'k').orElse fun _ =>
  altTr.orElse fun _ =>
  (altOne 'm').orElse fun _ =>
  (altOne 'đ').orElse fun _ =>
  (altOne 'd').orElse fun _ =>
  (matchRem rest).map (fun rn => (none, rn))

/-- `\s*` before the suffix: greedy, backtracking to shorter runs. -/
def matchWsStar (rest : List Char) :
    Option (Option (List Char) × Option (List Char) × Option (List Char)) :=
  match rest with
  | c :: rs =>
    if isJsWs c then
      match matchWsStar rs with
      | some r => some r
      | none => matchSuf rest
    else matchSuf rest
  | [] => matchSuf []

/-- Greedy continuation of `([\d,.]+)` with at least one character consumed
(in `accRev`, reversed): longest run first, backtracking to shorter runs. -/
def matchNumDigits (accRev : List Char) (rest : List Char) : Option TailMatch :=
  match rest with
  | c :: rs =>
    if isNumChar c then
      match matchNumDigits (c :: accRev) rs with
      | some r => some r
      | none => (matchWsStar rest).map (fun srn => ⟨accRev.reverse, srn.1, srn.2.1, srn.2.2⟩)
    else (matchWsStar rest).map (fun srn => ⟨accRev.reverse, srn.1, srn.2.1, srn.2.2⟩)
  | [] => (matchWsStar []).map (fun srn => ⟨accRev.reverse, srn.1, srn.2.1, srn.2.2⟩)

/-- `([\d,.]+)\s*...$` — the numeric literal onwards. -/
def matchNum (rest : List Char) : Option TailMatch :=
  match rest with
  | c :: rs => if isNumChar c then matchNumDigits [c] rs else none
  | [] => none

/-- Greedy continuation of `\s+` after the category with at least one
whitespace character consumed: longest run first, backtracking. -/
def matchWsPlusGo (rest : List Char) : Option TailMatch :=
  match rest with
  | c :: rs =>
    if isJsWs c then
      match matchWsPlusGo rs with
      | some r => some r
      | none => matchNum rest
    else matchNum rest
  | [] => matchNum []

/-- `\s+([\d,.]+)...$` — the separator after the category onwards. -/
def matchWsPlus (rest : List Char) : Option TailMatch :=
  match rest with
  | c :: rs => if isJsWs c then matchWsPlusGo rs else none
  | [] => none

/-- Lazy `(.+?)`: with the category collected so far (in `accRev`,
reversed, nonempty), try the tail of the pattern here first and only extend
the category by one more (non-line-terminator) character on failure. -/
def matchCat (accRev : List Char) (rest : List Char) : Option RawMatch :=
  match matchWsPlus rest with
  | some t => some ⟨accRev.reverse, t⟩
  | none =>
    match rest with
    | c :: rs => if ¬ isLineTerm c then matchCat (c :: accRev) rs else none
    | [] => none

/-- The anchored pattern applied to the whole text, as in
`textToParse.match(regex)`. -/
def matchRegex (text : List Char) : Option RawMatch :=
  match text with
  | c :: rs => if ¬ isLineTerm c then matchCat [c] rs else none
  | [] => none

/-! ### parseExpense (src/parser.ts lines 18-76) -/

inductive EntryType where
  | expense
  | income
  deriving DecidableEq, Repr

structure ParsedExpense where
  category : List Char
  amount : JsNum
  note : Option (List Char)
  type : EntryType
  deriving DecidableEq, Repr

/-- Does `pat` occur at the start of `l`, case-insensitively, followed by a
whitespace character?  Models `/^(thu|nhận)\s/i.test` for one alternative. -/
def ciMarkThenWs (pat : List Char) (l : List Char) : Bool :=
  match pat, l with
  | [], c :: _ => isJsWs c
  | p :: ps, c :: cs => jsCanonEq c p && ciMarkThenWs ps cs
  | _, [] => false

/-- `/^(thu|nhận)\s/i.test(trimmed)` (src/parser.ts line 22). -/
def incomeTest (l : List Char) : Bool :=
  ciMarkThenWs ['t', 'h', 'u'] l || ciMarkThenWs ['n', 'h', 'ậ', 'n'] l

/-- `trimmed.replace(/^(thu|nhận)\s+/i, '')` (src/parser.ts line 26),
assuming the test succeeded: drop the matched marker and the following
whitespace run. -/
def stripIncomeMark (l : List Char) : List Char :=
  if ciMarkThenWs ['t', 'h', 'u'] l then (l.drop 3).dropWhile isJsWs
  else if ciMarkThenWs ['n', 'h', 'ậ', 'n'] l then (l.drop 4).dropWhile isJsWs
  else l

/-- Case-insensitive literal-prefix test, reading the specification's
phrase "begins with the case-insensitive prefix": every pattern character
must match the corresponding input character under `i`-flag
canonicalisation.  Used to compare the specified condition with the
whitespace-based test of the source. -/
def beginsWithCI : List Char → List Char → Bool
  | [], _ => true
  | _ :: _, [] => false
  | p :: ps, c :: cs => jsCanonEq c p && beginsWithCI ps cs

/-- Capitalisation of the category (src/parser.ts line 71):
`category.charAt(0).toUpperCase() + category.slice(1)`. -/
def jsCapitalize : List Char → List Char
  | [] => []
  | c :: cs => jsUpperChar c :: cs

/-- The text handed to the structural pattern: the trimmed input, with the
income marker stripped when present (src/parser.ts lines 19-27). -/
def preprocess (l : List Char) : List Char :=
  let trimmed := trimL l
  if incomeTest trimmed then stripIncomeMark trimmed else trimmed

/-- The expense parser over character lists (src/parser.ts lines 18-76).
The early `return null`s of the source are the `none` cases of the
`Option.bind`/`Option.map` chain. -/
def parseExpenseL (input : List Char) : Option ParsedExpense :=
  (matchRegex (preprocess input)).bind fun m =>
    -- `if (!match || !match[1] || !match[2]) return null` — a captured
    -- string is falsy exactly when it is empty.
    if m.category.isEmpty ∨ m.tail.amountStr.isEmpty then none
    else
      -- `if (isNaN(amount)) return null` — `resolveAmount` is `none`
      -- exactly when the source computes `NaN`.
      (resolveAmount m.tail.amountStr (m.tail.suffix.map toLowerL) m.tail.remainder).map
        fun a =>
          ⟨jsCapitalize (trimL m.category), a, m.tail.note.map trimL,
            if incomeTest (trimL input) then EntryType.income else EntryType.expense⟩

/-- The expense parser at the string boundary. -/
def parseExpense (input : String) : Option ParsedExpense :=
  parseExpenseL input.toList

/-! ### The ledger row composer (GoogleSheetsService.addExpense)

The pure core of `addExpense`: given the rows read from the sheet, today's
date string and the entry, decide whether a spacer and a date-header row are
needed and produce the ordered list of rows to append.  Two layout variants
exist in the repository: the 3-column layout of
src/google-sheets.service.ts (category, formatted amount, note) and the
4-column month-partitioned layout (category, expense amount, income amount,
note).  Cells read from the sheet are strings; the 4-column variant appends
raw numbers in the amount columns. -/

/-- The test `/^\d{2}\/\d{2}\/\d{4}$/` on a cell. -/
def isDateHeaderCell (s : String) : Bool :=
  match s.toList with
  | [d1, d2, s1, m1, m2, s2, y1, y2, y3, y4] =>
    d1.isDigit && d2.isDigit && s1 = '/' && m1.isDigit && m2.isDigit && s2 = '/' &&
      y1.isDigit && y2.isDigit && y3.isDigit && y4.isDigit
  | _ => false

/-- One step of the scan: the first cell of a row, when it is truthy and
matches the date pattern (an empty or missing first cell is falsy, and the
empty string never matches the pattern). -/
def headerCellOf (row : List String) : Option String :=
  match row.head? with
  | some c => if isDateHeaderCell c then some c else none
  | none => none

/-- The backward scan of `addExpense`: the loop walks from the last row to
the first and stops at the first date-shaped first cell, so later rows take
precedence over earlier ones. -/
def lastDateHeaderOpt : List (List String) → Option String
  | [] => none
  | row :: rest =>
    match lastDateHeaderOpt rest with
    | some c => some c
    | none => headerCellOf row

/-- Row composition of the 3-column variant
(src/google-sheets.service.ts lines 106-134): `lastDateHeader` starts as the
empty string and is compared with `todayStr`; on a new day a spacer row is
pushed first when any rows were read, then the header row; the data row is
always pushed last. -/
def composeRows3 (values : List (List String)) (todayStr category amountFmt : String)
    (note : Option String) : List (List String) :=
  let lastHeader := (lastDateHeaderOpt values).getD ""
  (if lastHeader ≠ todayStr then
    (if values.length > 0 then [["", "", ""]] else []) ++ [[todayStr, "", ""]]
  else []) ++ [[category, amountFmt, note.getD ""]]

/-- A cell appended by the 4-column variant: a string or a raw number. -/
inductive Cell where
  | str (s : String)
  | num (n : JsNum)
  deriving DecidableEq, Repr

/-- Row composition of the 4-column month-partitioned variant: expense and
income amounts go to distinct columns, the other of the two stays empty. -/
def composeRows4 (values : List (List String)) (todayStr category : String)
    (amount : JsNum) (ty : EntryType) (note : Option String) : List (List Cell) :=
  let lastHeader := (lastDateHeaderOpt values).getD ""
  (if lastHeader ≠ todayStr then
    (if values.length > 0 then [[Cell.str "", Cell.str "", Cell.str "", Cell.str ""]] else []) ++
      [[Cell.str todayStr, Cell.str "", Cell.str "", Cell.str ""]]
  else []) ++
  [if ty = EntryType.expense then
    [Cell.str category, Cell.num amount, Cell.str "", Cell.str (note.getD "")]
  else
    [Cell.str category, Cell.str "", Cell.num amount, Cell.str (note.getD "")]]

/-! ### Column addressing of the month-partitioned layout -/

/-- The loop body of `columnIndexToLetter`: each iteration prepends
`chr(i % 26 + 65)` and continues with `Math.floor(i / 26) - 1` while that is
still nonnegative.  The loop variable strictly decreases, so `i + 1` units
of fuel always suffice; the fuel only bounds the recursion depth. -/
def columnLetterGo : ℕ → ℕ → List Char
  | 0, _ => []
  | fuel + 1, i =>
    let c := Char.ofNat (i % 26 + 65)
    if i < 26 then [c] else columnLetterGo fuel (i / 26 - 1) ++ [c]

/-- `columnIndexToLetter` (src/unnamed/part_000 lines 53-61): bijective
base-26 column name of a 0-based column index. -/
def columnIndexToLetter (i : ℕ) : List Char :=
  columnLetterGo (i + 1) i

/-- `getMonthRange` (src/unnamed/part_000 lines 63-70): the 4-column window
of the month block, columns `5 * m` to `5 * m + 3`. -/
def getMonthRange (month : ℕ) : String :=
  let startIndex := month * 5
  let endIndex := startIndex + 3
  "'1'!" ++ String.mk (columnIndexToLetter startIndex) ++ ":" ++
    String.mk (columnIndexToLetter endIndex)

/-- The numeric value of a column name under the standard bijective base-26
reading (`A` = 1, ..., `Z` = 26, `AA` = 27, ...), written from the
specification's description of the numbering, independently of the code. -/
def letterVal (l : List Char) : ℕ :=
  l.foldl (fun n c => n * 26 + (c.toNat - 64)) 0

/-! ### Helper lemmas -/

theorem lookup_mem {l : List (Char × Char)} {a b : Char} (h : l.lookup a = some b) :
    (a, b) ∈ l := by
  induction l with
  | nil => simp [List.lookup] at h
  | cons p t ih =>
    obtain ⟨k, v⟩ := p
    rw [List.lookup] at h
    by_cases hak : a = k
    · subst hak
      simp at h
      simp [h]
    · have : (a == k) = false := by simp [hak]
      rw [this] at h
      exact List.mem_cons_of_mem _ (ih h)

theorem casePairs_upper_fixed : ∀ p ∈ casePairs, casePairs.lookup p.2 = none := by
  decide

theorem jsUpperChar_idem (c : Char) : jsUpperChar (jsUpperChar c) = jsUpperChar c := by
  unfold jsUpperChar
  cases h : casePairs.lookup c with
  | none => simp [h]
  | some u =>
    have := casePairs_upper_fixed (c, u) (lookup_mem h)
    simp only [h, Option.getD_some]
    simp [this]

theorem char_toNat_ofNat {n : ℕ} (h : n < 55296) : (Char.ofNat n).toNat = n := by
  have hv : n.isValidChar := Or.inl h
  simp only [Char.ofNat, hv, dif_pos, Char.ofNatAux, Char.toNat, UInt32.toNat]
  rfl

theorem floatInfThresholdN_cast : ((floatInfThresholdN : ℕ) : ℚ) = floatInfThreshold := by
  have h : (2 : ℕ) ^ 970 ≤ 2 ^ 1024 := Nat.pow_le_pow_right (by norm_num) (by norm_num)
  unfold floatInfThresholdN floatInfThreshold
  push_cast [h]
  ring

theorem decOverflows_iff (d : Dec) :
    decOverflows d = true ↔ floatInfThreshold ≤ decToQ d := by
  have hpow : (0 : ℚ) < (10 : ℚ) ^ d.exp := by positivity
  have hcast : ((floatInfThresholdN * 10 ^ d.exp : ℕ) : ℚ) =
      floatInfThreshold * 10 ^ d.exp := by
    push_cast [floatInfThresholdN_cast]
    ring
  unfold decOverflows
  rw [decide_eq_true_eq, decToQ, le_div_iff hpow, ← hcast]
  exact Nat.cast_le.symm

theorem decToQ_nonneg (d : Dec) : 0 ≤ decToQ d := by
  unfold decToQ
  positivity

theorem decToQ_scale (d : Dec) (c : ℕ) :
    decToQ ⟨d.num * c, d.exp⟩ = decToQ d * c := by
  unfold decToQ
  push_cast
  ring

theorem mkJsNum_fin {d : Dec} {q : ℚ} (h : mkJsNum d = JsNum.fin q) :
    q = decToQ d ∧ q < floatInfThreshold := by
  unfold mkJsNum at h
  split at h
  · exact absurd h (by simp)
  · next hov =>
    have hq : q = decToQ d := (JsNum.fin.injEq .. ▸ h).symm
    have hnle : ¬ floatInfThreshold ≤ decToQ d := fun hc => hov ((decOverflows_iff d).mpr hc)
    exact ⟨hq, hq ▸ not_le.mp hnle⟩

theorem jsParseFloat_fin {l : List Char} {q : ℚ}
    (h : jsParseFloat l = some (JsNum.fin q)) : 0 ≤ q ∧ q < floatInfThreshold := by
  unfold jsParseFloat at h
  rw [Option.map_eq_some'] at h
  obtain ⟨d, -, hd⟩ := h
  obtain ⟨rfl, hlt⟩ := mkJsNum_fin hd
  exact ⟨decToQ_nonneg d, hlt⟩

theorem resolveBase_fin {a : List Char} {sp : Bool} {r : Option (List Char)} {q : ℚ}
    (h : resolveBase a sp r = some (JsNum.fin q)) : 0 ≤ q ∧ q < floatInfThreshold := by
  unfold resolveBase at h
  rw [Option.map_eq_some'] at h
  obtain ⟨d, -, hd⟩ := h
  obtain ⟨rfl, hlt⟩ := mkJsNum_fin hd
  exact ⟨decToQ_nonneg d, hlt⟩

theorem suffixMult_pos (s : Option (List Char)) : 0 < suffixMult s := by
  unfold suffixMult
  split
  · split
    · norm_num
    · split <;> norm_num
  · norm_num

theorem suffixMult_eq (s : Option (List Char)) : suffixMult s = (suffixMultN s : ℚ) := by
  cases s with
  | none => norm_num [suffixMult, suffixMultN]
  | some s => simp only [suffixMult, suffixMultN]; split_ifs <;> norm_num

theorem one_le_suffixMultN (s : Option (List Char)) : 1 ≤ suffixMultN s := by
  unfold suffixMultN
  split
  · split
    · norm_num
    · split <;> norm_num
  · norm_num

/-- Scaling the decimal numerator agrees with `jsMulConst` on JS numbers:
the single threshold test of `resolveAmount` is equivalent to testing at
`parseFloat` and again after the multiplication, because the multiplier is
at least 1. -/
theorem mkJsNum_scale (d : Dec) (c : ℕ) (hc : 1 ≤ c) :
    mkJsNum ⟨d.num * c, d.exp⟩ = jsMulConst (c : ℚ) (mkJsNum d) := by
  by_cases hov : decOverflows d = true
  · have hov2 : decOverflows ⟨d.num * c, d.exp⟩ = true := by
      unfold decOverflows at hov ⊢
      rw [decide_eq_true_eq] at hov ⊢
      calc floatInfThresholdN * 10 ^ d.exp ≤ d.num := hov
        _ ≤ d.num * c := Nat.le_mul_of_pos_right _ (by omega)
    simp [mkJsNum, hov, hov2, jsMulConst]
  · by_cases h2 : floatInfThreshold ≤ decToQ d * (c : ℚ)
    · have hov2 : decOverflows ⟨d.num * c, d.exp⟩ = true := by
        rw [decOverflows_iff, decToQ_scale]
        exact h2
      simp [mkJsNum, hov, hov2, jsMulConst, h2]
    · have hov2 : ¬ decOverflows ⟨d.num * c, d.exp⟩ = true := fun hcon =>
        h2 (by rw [← decToQ_scale d c]; exact (decOverflows_iff _).mp hcon)
      simp [mkJsNum, hov, hov2, jsMulConst, h2, decToQ_scale]

/-- `resolveAmount` in the shape of the source: the base value of lines
44-60 followed by the multiplier step of lines 62-66. -/
theorem resolveAmount_spec (a : List Char) (s : Option (List Char))
    (r : Option (List Char)) :
    resolveAmount a s r = (resolveBase a s.isSome r).map (jsMulConst (suffixMult s)) := by
  unfold resolveAmount resolveBase
  cases resolveBaseD a s.isSome r with
  | none => rfl
  | some d =>
    simp only [Option.map_some']
    rw [suffixMult_eq]
    exact congrArg some (mkJsNum_scale d _ (one_le_suffixMultN s))

/-- Multiplying by 1 is the identity on every number produced by
`resolveBase` (finite values stay strictly below the overflow threshold). -/
theorem jsMulConst_one_resolveBase {a : List Char} {sp : Bool} {r : Option (List Char)}
    {b : JsNum} (h : resolveBase a sp r = some b) : jsMulConst 1 b = b := by
  cases b with
  | inf => rfl
  | fin q =>
    obtain ⟨-, hlt⟩ := resolveBase_fin h
    show (if floatInfThreshold ≤ q * 1 then JsNum.inf else JsNum.fin (q * 1)) = JsNum.fin q
    rw [mul_one, if_neg (not_le.mpr hlt)]

/-- The lazy category group always extends the characters accumulated so
far: a successful match's category starts with the accumulator. -/
theorem matchCat_category {rest : List Char} :
    ∀ {accRev : List Char} {m : RawMatch}, matchCat accRev rest = some m →
      ∃ ext, m.category = accRev.reverse ++ ext := by
  induction rest with
  | nil =>
    intro accRev m h
    rw [matchCat] at h
    cases hw : matchWsPlus ([] : List Char) with
    | some t => rw [hw] at h; cases h; exact ⟨[], by simp⟩
    | none => rw [hw] at h; simp at h
  | cons c rs ih =>
    intro accRev m h
    rw [matchCat] at h
    cases hw : matchWsPlus (c :: rs) with
    | some t => rw [hw] at h; cases h; exact ⟨[], by simp⟩
    | none =>
      rw [hw] at h
      by_cases hc : isLineTerm c
      · simp [hc] at h
      · simp only [hc, Bool.false_eq_true, not_false_eq_true, if_true] at h
        obtain ⟨ext, hext⟩ := ih h
        refine ⟨c :: ext, ?_⟩
        simpa using hext

/-- A successful match's category starts with the first character of the
matched text. -/
theorem matchRegex_category {c : Char} {rs : List Char} {m : RawMatch}
    (h : matchRegex (c :: rs) = some m) : ∃ ext, m.category = c :: ext := by
  rw [matchRegex] at h
  by_cases hc : isLineTerm c
  · simp [hc] at h
  · simp only [hc, Bool.false_eq_true, not_false_eq_true, if_true] at h
    obtain ⟨ext, hext⟩ := matchCat_category h
    exact ⟨ext, by simpa using hext⟩

theorem head_dropWhile {p : Char → Bool} {l : List Char} {c : Char} {t : List Char}
    (h : l.dropWhile p = c :: t) : p c = false := by
  induction l with
  | nil => simp at h
  | cons a l ih =>
    rw [List.dropWhile_cons] at h
    split at h
    · exact ih h
    · next hp => cases h; simpa using hp

theorem trimEndL_cons_not_ws {c : Char} {t : List Char} (h : isJsWs c = false) :
    trimEndL (c :: t) = c :: trimEndL t := by
  rw [trimEndL]
  simp [h]

theorem trimL_head_not_ws {l : List Char} {c : Char} {t : List Char}
    (h : trimL l = c :: t) : isJsWs c = false := by
  unfold trimL at h
  cases hd : l.dropWhile isJsWs with
  | nil => rw [hd] at h; simp [trimEndL] at h
  | cons a as =>
    have ha : isJsWs a = false := head_dropWhile hd
    rw [hd, trimEndL_cons_not_ws ha] at h
    cases h
    exact ha

/-- The text handed to the pattern never starts with whitespace. -/
theorem preprocess_head_not_ws {l : List Char} {c : Char} {t : List Char}
    (h : preprocess l = c :: t) : isJsWs c = false := by
  simp only [preprocess] at h
  split at h
  · unfold stripIncomeMark at h
    split at h
    · exact head_dropWhile h
    · split at h
      · exact head_dropWhile h
      · exact trimL_head_not_ws h
  · exact trimL_head_not_ws h

/-- Inversion of a successful parse: the pattern matched the preprocessed
text, both mandatory groups are nonempty, the amount resolved, and the entry
fields are assembled from the captures. -/
theorem parseExpenseL_some {input : List Char} {e : ParsedExpense}
    (h : parseExpenseL input = some e) :
    ∃ m a, matchRegex (preprocess input) = some m ∧
      m.category.isEmpty = false ∧ m.tail.amountStr.isEmpty = false ∧
      resolveAmount m.tail.amountStr (m.tail.suffix.map toLowerL) m.tail.remainder = some a ∧
      e = ⟨jsCapitalize (trimL m.category), a, m.tail.note.map trimL,
        if incomeTest (trimL input) then EntryType.income else EntryType.expense⟩ := by
  unfold parseExpenseL at h
  rw [Option.bind_eq_some] at h
  obtain ⟨m, hm, h⟩ := h
  by_cases hfal : (m.category.isEmpty = true ∨ m.tail.amountStr.isEmpty = true)
  · rw [if_pos hfal] at h
    exact absurd h (by simp)
  · rw [if_neg hfal] at h
    rw [Option.map_eq_some'] at h
    obtain ⟨a, ha, he⟩ := h
    refine ⟨m, a, hm, ?_, ?_, ha, he.symm⟩
    · rcases Bool.eq_false_or_eq_true m.category.isEmpty with hb | hb
      · exact absurd (Or.inl hb) hfal
      · exact hb
    · rcases Bool.eq_false_or_eq_true m.tail.amountStr.isEmpty with hb | hb
      · exact absurd (Or.inr hb) hfal
      · exact hb

theorem lastDateHeaderOpt_eq_none {rows : List (List String)}
    (h : ∀ r ∈ rows, headerCellOf r = none) : lastDateHeaderOpt rows = none := by
  induction rows with
  | nil => rfl
  | cons r t ih =>
    have ht := ih fun x hx => h x (List.mem_cons_of_mem _ hx)
    have hr := h r (List.mem_cons_self _ _)
    simp [lastDateHeaderOpt, ht, hr]

/-- The backward scan returns the date cell of the latest date-shaped row:
rows before it are ignored, rows after it must all be non-date-shaped. -/
theorem lastDateHeaderOpt_append_last {vs rest : List (List String)} {c : String}
    {others : List String} (hc : isDateHeaderCell c = true)
    (hrest : ∀ r ∈ rest, headerCellOf r = none) :
    lastDateHeaderOpt (vs ++ (c :: others) :: rest) = some c := by
  induction vs with
  | nil => simp [lastDateHeaderOpt, lastDateHeaderOpt_eq_none hrest, headerCellOf, hc]
  | cons v t ih => simp [lastDateHeaderOpt, ih]

/-- Appending one row at the end: it wins the scan exactly when its first
cell is date-shaped, whatever its other cells hold. -/
theorem lastDateHeaderOpt_concat (values : List (List String)) (c : String)
    (others : List String) :
    lastDateHeaderOpt (values ++ [c :: others]) =
      if isDateHeaderCell c then some c else lastDateHeaderOpt values := by
  induction values with
  | nil =>
    by_cases hc : isDateHeaderCell c <;>
      simp [lastDateHeaderOpt, headerCellOf, hc]
  | cons v t ih =>
    simp only [List.cons_append, lastDateHeaderOpt, List.append_eq, ih]
    by_cases hc : isDateHeaderCell c
    · simp [hc]
    · simp only [hc, Bool.false_eq_true, if_false]

theorem isDateHeaderCell_ne_empty {s : String} (h : isDateHeaderCell s = true) :
    s ≠ "" := by
  intro he
  rw [he] at h
  exact absurd h (by decide)

theorem letterVal_append (xs : List Char) (c : Char) :
    letterVal (xs ++ [c]) = letterVal xs * 26 + (c.toNat - 64) := by
  simp [letterVal, List.foldl_append]

/-- With sufficient fuel the column-letter loop computes the bijective
base-26 value `i + 1`. -/
theorem columnLetterGo_val : ∀ fuel i : ℕ, i < fuel →
    letterVal (columnLetterGo fuel i) = i + 1 := by
  intro fuel
  induction fuel with
  | zero => intro i hi; exact absurd hi (Nat.not_lt_zero i)
  | succ f ih =>
    intro i hi
    simp only [columnLetterGo]
    have hchar : (Char.ofNat (i % 26 + 65)).toNat = i % 26 + 65 :=
      char_toNat_ofNat (by omega)
    by_cases h26 : i < 26
    · rw [if_pos h26]
      simp only [letterVal, List.foldl_cons, List.foldl_nil, hchar]
      omega
    · rw [if_neg h26]
      have hdiv : i / 26 < i := Nat.div_lt_self (by omega) (by norm_num)
      rw [letterVal_append, ih _ (by omega), hchar]
      omega

/-- Every character the loop emits is an upper-case ASCII letter. -/
theorem columnLetterGo_chars : ∀ fuel i : ℕ, ∀ c ∈ columnLetterGo fuel i,
    65 ≤ c.toNat ∧ c.toNat ≤ 90 := by
  intro fuel
  induction fuel with
  | zero => intro i c hc; simp [columnLetterGo] at hc
  | succ f ih =>
    intro i c hc
    simp only [columnLetterGo] at hc
    have hchar : (Char.ofNat (i % 26 + 65)).toNat = i % 26 + 65 :=
      char_toNat_ofNat (by omega)
    by_cases h26 : i < 26
    · rw [if_pos h26] at hc
      simp only [List.mem_singleton] at hc
      subst hc
      omega
    · rw [if_neg h26] at hc
      rw [List.mem_append] at hc
      rcases hc with hc | hc
      · exact ih _ c hc
      · simp only [List.mem_singleton] at hc
        subst hc
        omega

/-! ### Evaluation lemmas for pure digit-run inputs

An input of the shape `a <digits>` is matched without backtracking:
the category is `a`, the numeric literal is the whole digit run, and no
suffix, remainder or note is captured.  These lemmas let such inputs be
evaluated by induction instead of by kernel reduction, which matters for
inputs hundreds of digits long. -/

theorem isDigit_toNat {c : Char} (h : c.isDigit = true) :
    48 ≤ c.toNat ∧ c.toNat ≤ 57 := by
  simp only [Char.isDigit, decide_eq_true_eq] at h
  obtain ⟨h1, h2⟩ := by simpa using h
  constructor
  · exact h1
  · exact h2

theorem isDigit_not_ws {c : Char} (h : c.isDigit = true) : isJsWs c = false := by
  obtain ⟨h1, h2⟩ := isDigit_toNat h
  simp only [isJsWs, decide_eq_false_iff_not]
  omega

theorem isDigit_isNumChar {c : Char} (h : c.isDigit = true) : isNumChar c = true := by
  simp [isNumChar, h]

theorem isDigit_not_sep {c : Char} (h : c.isDigit = true) :
    (c = ',') = False ∧ (c = '.') = False := by
  obtain ⟨h1, h2⟩ := isDigit_toNat h
  constructor <;>
    · simp only [eq_iff_iff, iff_false]
      intro hc
      subst hc
      simp at h1 h2

/-- `matchNote` on the empty rest: no note, successful. -/
theorem matchNote_nil : matchNote [] = some none := rfl

/-- The greedy digit run of the remainder-free tail: when the whole rest is
digits, the numeric literal absorbs everything and the remaining groups stay
unset. -/
theorem matchNumDigits_digits : ∀ (rest accRev : List Char),
    (∀ c ∈ rest, c.isDigit = true) →
    matchNumDigits accRev rest = some ⟨accRev.reverse ++ rest, none, none, none⟩ := by
  intro rest
  induction rest with
  | nil =>
    intro accRev _
    simp only [List.append_nil]
    rfl
  | cons c rs ih =>
    intro accRev h
    have hc : c.isDigit = true := h c (List.mem_cons_self _ _)
    have hrs : ∀ x ∈ rs, x.isDigit = true := fun x hx => h x (List.mem_cons_of_mem _ hx)
    have hnum : isNumChar c = true := isDigit_isNumChar hc
    rw [matchNumDigits, if_pos hnum, ih (c :: accRev) hrs]
    simp

/-- The whole pattern on `a <digit run>`. -/
theorem matchRegex_digitRun {ds : List Char} (hne : ds ≠ [])
    (hds : ∀ c ∈ ds, c.isDigit = true) :
    matchRegex ('a' :: ' ' :: ds) = some ⟨['a'], ⟨ds, none, none, none⟩⟩ := by
  cases ds with
  | nil => exact absurd rfl hne
  | cons d ds' =>
    have hd : d.isDigit = true := hds d (List.mem_cons_self _ _)
    have hds' : ∀ x ∈ ds', x.isDigit = true := fun x hx => hds x (List.mem_cons_of_mem _ hx)
    have hstep : matchNumDigits [d] ds' = some ⟨d :: ds', none, none, none⟩ := by
      rw [matchNumDigits_digits ds' [d] hds']
      rfl
    rw [matchRegex]
    rw [if_pos (by decide : ¬ isLineTerm 'a' = true)]
    rw [matchCat]
    have hwsp : matchWsPlus (' ' :: d :: ds') = some ⟨d :: ds', none, none, none⟩ := by
      rw [matchWsPlus, if_pos (by decide : isJsWs ' ' = true), matchWsPlusGo,
        if_neg (by simp [isDigit_not_ws hd]), matchNum, if_pos (isDigit_isNumChar hd), hstep]
    rw [hwsp]
    rfl

theorem trimEndL_cons_of_ne_nil {x : Char} {xs : List Char}
    (h : trimEndL xs ≠ []) : trimEndL (x :: xs) = x :: trimEndL xs := by
  rw [trimEndL]
  simp [h]

theorem trimEndL_eq_self {l : List Char} (h : ∀ c ∈ l, isJsWs c = false) :
    trimEndL l = l := by
  induction l with
  | nil => rfl
  | cons c cs ih =>
    have hc := h c (List.mem_cons_self _ _)
    have := ih fun x hx => h x (List.mem_cons_of_mem _ hx)
    rw [trimEndL]
    simp [hc, this]

theorem stripSeps_digits {l : List Char} (h : ∀ c ∈ l, c.isDigit = true) :
    stripSeps l = l := by
  unfold stripSeps
  rw [List.filter_eq_self]
  intro c hc
  obtain ⟨h1, h2⟩ := isDigit_not_sep (h c hc)
  simp [h1, h2]

theorem takeWhile_digits {l : List Char} (h : ∀ c ∈ l, c.isDigit = true) :
    l.takeWhile Char.isDigit = l := by
  induction l with
  | nil => rfl
  | cons c cs ih =>
    rw [List.takeWhile_cons, if_pos (h c (List.mem_cons_self _ _))]
    rw [ih fun x hx => h x (List.mem_cons_of_mem _ hx)]

/-- Full evaluation of the parser on `a <digit run>`: the amount is the
digit-run value converted at the overflow threshold. -/
theorem parseExpenseL_digitRun {ds : List Char} (hne : ds ≠ [])
    (hds : ∀ c ∈ ds, c.isDigit = true) :
    parseExpenseL ('a' :: ' ' :: ds) =
      some ⟨['A'], mkJsNum ⟨digitsVal ds * 1, 0⟩, none, EntryType.expense⟩ := by
  have hnw : ∀ c ∈ ds, isJsWs c = false := fun c hc => isDigit_not_ws (hds c hc)
  have htrim : trimL ('a' :: ' ' :: ds) = 'a' :: ' ' :: ds := by
    unfold trimL
    rw [List.dropWhile_cons, if_neg (by decide)]
    have h1 : trimEndL ds = ds := trimEndL_eq_self hnw
    have h2 : trimEndL (' ' :: ds) = ' ' :: ds := by
      rw [trimEndL_cons_of_ne_nil (by rw [h1]; exact hne)]
      rw [h1]
    rw [trimEndL_cons_of_ne_nil (by rw [h2]; simp)]
    rw [h2]
  have hinc : incomeTest ('a' :: ' ' :: ds) = false := rfl
  have hpre : preprocess ('a' :: ' ' :: ds) = 'a' :: ' ' :: ds := by
    simp only [preprocess]
    rw [htrim, hinc]
    simp
  have hparse : jsParseFloatD ds = some ⟨digitsVal ds, 0⟩ := by
    unfold jsParseFloatD
    have ht := takeWhile_digits hds
    simp only [ht]
    rw [if_neg (by simpa using hne)]
    rw [List.drop_length]
  unfold parseExpenseL
  rw [hpre, matchRegex_digitRun hne hds]
  rw [Option.bind_eq_some]
  refine ⟨⟨['a'], ⟨ds, none, none, none⟩⟩, rfl, ?_⟩
  rw [if_neg (by simpa using hne)]
  have hres : resolveAmount ds none none = some (mkJsNum ⟨digitsVal ds * 1, 0⟩) := by
    unfold resolveAmount resolveBaseD
    simp only [Option.isSome_none]
    rw [if_neg (by simp)]
    rw [stripSeps_digits hds, hparse]
    rfl
  simp only [Option.map_none', hres, Option.map_some']
  rw [htrim, hinc]
  rfl

/-- A character that case-insensitively matches a space is a space: the
case table maps no character to a space. -/
theorem jsCanonEq_space {c : Char} (h : jsCanonEq c ' ' = true) : c = ' ' := by
  unfold jsCanonEq at h
  rw [decide_eq_true_eq] at h
  rw [show jsUpperChar ' ' = ' ' from rfl] at h
  unfold jsUpperChar at h
  cases hl : casePairs.lookup c with
  | none =>
    rw [hl] at h
    simpa using h
  | some u =>
    rw [hl] at h
    simp only [Option.getD_some] at h
    have hne : ∀ p ∈ casePairs, p.2 ≠ ' ' := by decide
    exact absurd h (hne (c, u) (lookup_mem hl))

/-! ### Claim C1 -/

/-- C1 (counterexample): the claim states that `parseExpense` never returns
an entry with an infinite amount, but a 309-digit literal exceeds the
binary64 range: `parseFloat` yields `+Infinity`, the `isNaN` guard does not
reject it, and the parser returns an entry whose amount is infinite. -/
theorem c1_counterexample :
    parseExpense ("a " ++ String.mk (List.replicate 309 '9')) =
      some ⟨['A'], JsNum.inf, none, EntryType.expense⟩ := by
  have hds : ∀ c ∈ List.replicate 309 '9', c.isDigit = true := by
    intro c hc
    rw [List.eq_of_mem_replicate hc]
    decide
  have hne : (List.replicate 309 '9' : List Char) ≠ [] := by
    intro h
    have hlen := congrArg List.length h
    simp at hlen
  have hlist : ("a " ++ String.mk (List.replicate 309 '9')).toList =
      'a' :: ' ' :: List.replicate 309 '9' := rfl
  rw [parseExpense, hlist, parseExpenseL_digitRun hne hds]
  have hov : decOverflows ⟨digitsVal (List.replicate 309 '9') * 1, 0⟩ = true := by decide
  rw [mkJsNum, if_pos hov]

/-- C1 (amended): for every input string, `parseExpense` either returns
no match or an entry; it never throws (it is a total function), the
returned amount is never `NaN` (a `NaN` at any stage yields no match), and
every finite returned amount is non-negative.  However, the amount can be
`+Infinity` for numeric literals of three hundred or more digits, because
the source checks `isNaN` but not `isFinite`. -/
theorem c1_no_nan_nonneg (s : String) (e : ParsedExpense) (q : ℚ)
    (he : parseExpense s = some e) (hq : e.amount = JsNum.fin q) : 0 ≤ q := by
  obtain ⟨m, a, -, -, -, ha, rfl⟩ := parseExpenseL_some he
  rw [resolveAmount_spec] at ha
  rw [Option.map_eq_some'] at ha
  obtain ⟨b, hb, hba⟩ := ha
  simp only at hq
  subst hba
  cases b with
  | inf => simp [jsMulConst] at hq
  | fin qb =>
    obtain ⟨hnn, -⟩ := resolveBase_fin hb
    simp only [jsMulConst] at hq
    split at hq
    · exact absurd hq (by simp)
    · cases hq
      have := suffixMult_pos (m.tail.suffix.map toLowerL)
      positivity

/-- C1 (witness): the amended theorem applied to a concrete parse. -/
theorem c1_no_nan_nonneg_witness : 0 ≤ decToQ ⟨157000, 0⟩ :=
  c1_no_nan_nonneg "ăn tối 157k"
    ⟨"Ăn tối".toList, JsNum.fin (decToQ ⟨157000, 0⟩), none, EntryType.expense⟩
    (decToQ ⟨157000, 0⟩) rfl rfl

/-! ### Claim C2 -/

/-- C2 (counterexample): `đ`/`d` is not equivalent to deleting the suffix
from the text: on `a 1.2d` the suffix makes the literal `1.2` take the
decimal-point branch (amount 1.2), while on `a 1.2` the no-suffix branch
strips the separator (amount 12). -/
theorem c2_counterexample :
    parseExpense "a 1.2d" =
      some ⟨['A'], JsNum.fin (decToQ ⟨12, 1⟩), none, EntryType.expense⟩ ∧
    parseExpense "a 1.2" =
      some ⟨['A'], JsNum.fin (decToQ ⟨12, 0⟩), none, EntryType.expense⟩ ∧
    decToQ ⟨12, 1⟩ = 6 / 5 ∧ decToQ ⟨12, 0⟩ = 12 ∧
    parseExpense "a 1.2d" ≠ parseExpense "a 1.2" := by
  refine ⟨rfl, rfl, by norm_num [decToQ], by norm_num [decToQ], ?_⟩
  intro h
  rw [show parseExpense "a 1.2d" =
      some ⟨['A'], JsNum.fin (decToQ ⟨12, 1⟩), none, EntryType.expense⟩ from rfl,
    show parseExpense "a 1.2" =
      some ⟨['A'], JsNum.fin (decToQ ⟨12, 0⟩), none, EntryType.expense⟩ from rfl] at h
  have hq : decToQ ⟨12, 1⟩ = decToQ ⟨12, 0⟩ := by
    have := Option.some.inj h
    simpa using congrArg ParsedExpense.amount this
  rw [show decToQ ⟨12, 1⟩ = 6 / 5 from by norm_num [decToQ],
    show decToQ ⟨12, 0⟩ = 12 from by norm_num [decToQ]] at hq
  norm_num at hq

/-- C2 (amended): the `đ`/`d` suffix never scales the value — for every
literal and every optional compound remainder, the resolved amount with
suffix `đ`/`d` equals the base value obtained with a suffix present — but
the suffix still participates in the compound-remainder and
separator-disambiguation steps (and in the grouping of the surrounding
text), so deleting it from the input is not in general behaviour
preserving.  The second conjunct records one concrete input pair,
`xăng 50000đ` versus `xăng 50000`, on which the two parses do coincide;
no generality beyond this instance is claimed for agreement. -/
theorem c2_d_suffix_no_scale :
    (∀ (a : List Char) (r : Option (List Char)),
      resolveAmount a (some ['d']) r = resolveBase a true r ∧
      resolveAmount a (some ['đ']) r = resolveBase a true r) ∧
    parseExpense "xăng 50000đ" = parseExpense "xăng 50000" := by
  constructor
  · intro a r
    constructor <;>
    · unfold resolveAmount resolveBase
      simp only [Option.isSome_some]
      cases hres : resolveBaseD a true r with
      | none => rfl
      | some d => simp [suffixMultN]
  · rfl

/-- C2 (witness): the amended theorem applied at a concrete literal. -/
theorem c2_d_suffix_no_scale_witness :
    resolveAmount ['5', '0'] (some ['d']) none = resolveBase ['5', '0'] true none :=
  (c2_d_suffix_no_scale.1 ['5', '0'] none).1

/-! ### Claim C3 -/

/-- C3: compound form.  Whenever the match captures a suffix and a
remainder digit run, the amount is the decimal number formed by the cleaned
main digits, a decimal point and the remainder, multiplied by the suffix
factor; in particular `ăn tối 144tr300` parses to 144300000 and `2k5`
resolves to 2500. -/
theorem c3_compound_form :
    (∀ (s : String) (e : ParsedExpense) (m : RawMatch) (suf rem : List Char),
      parseExpense s = some e →
      matchRegex (preprocess s.toList) = some m →
      m.tail.suffix = some suf → m.tail.remainder = some rem →
      ∃ b, jsParseFloat (stripSeps m.tail.amountStr ++ '.' :: rem) = some b ∧
        e.amount = jsMulConst (suffixMult (some (toLowerL suf))) b) ∧
    parseExpense "ăn tối 144tr300" =
      some ⟨"Ăn tối".toList, JsNum.fin 144300000, none, EntryType.expense⟩ ∧
    parseExpense "mua 2k5" =
      some ⟨"Mua".toList, JsNum.fin 2500, none, EntryType.expense⟩ := by
  refine ⟨?_, ?_, ?_⟩
  · intro s e m suf rem he hm hsuf hrem
    obtain ⟨m', a, hm', -, -, ha, rfl⟩ := parseExpenseL_some he
    rw [hm] at hm'
    cases Option.some.inj hm'
    rw [hsuf, hrem, Option.map_some'] at ha
    rw [resolveAmount_spec] at ha
    rw [Option.map_eq_some'] at ha
    obtain ⟨b, hb, hba⟩ := ha
    have hbase : resolveBase m.tail.amountStr (some (toLowerL suf)).isSome (some rem) =
        jsParseFloat (stripSeps m.tail.amountStr ++ '.' :: rem) := by
      unfold resolveBase resolveBaseD jsParseFloat
      simp
    rw [hbase] at hb
    exact ⟨b, hb, by simp [← hba]⟩
  · rw [show parseExpense "ăn tối 144tr300" =
        some ⟨"Ăn tối".toList, JsNum.fin (decToQ ⟨144300000000, 3⟩), none,
          EntryType.expense⟩ from rfl,
      show decToQ ⟨144300000000, 3⟩ = 144300000 from by norm_num [decToQ]]
  · rw [show parseExpense "mua 2k5" =
        some ⟨"Mua".toList, JsNum.fin (decToQ ⟨25000, 1⟩), none,
          EntryType.expense⟩ from rfl,
      show decToQ ⟨25000, 1⟩ = 2500 from by norm_num [decToQ]]

/-- C3 (witness): the compound part applied to the concrete parse of
`ăn tối 144tr300`. -/
theorem c3_compound_form_witness :
    ∃ b, jsParseFloat (stripSeps "144".toList ++ '.' :: "300".toList) = some b ∧
      (⟨"Ăn tối".toList, JsNum.fin (decToQ ⟨144300000000, 3⟩), none,
        EntryType.expense⟩ : ParsedExpense).amount =
        jsMulConst (suffixMult (some (toLowerL "tr".toList))) b :=
  c3_compound_form.1 "ăn tối 144tr300"
    ⟨"Ăn tối".toList, JsNum.fin (decToQ ⟨144300000000, 3⟩), none, EntryType.expense⟩
    ⟨"ăn tối".toList, ⟨"144".toList, some "tr".toList, some "300".toList, none⟩⟩
    "tr".toList "300".toList rfl rfl rfl rfl

/-! ### Claim C4 -/

/-- C4: separator disambiguation.  With a suffix and no compound remainder,
a literal containing a separator is stripped when it has thousands-grouping
shape and otherwise read as a decimal after normalising commas to a point;
without a suffix every separator is stripped unconditionally.  In
particular `siêu thị 1.2tr` parses to 1200000 and `chi tiêu 2.839.000` to
2839000. -/
theorem c4_separator_disambiguation :
    (∀ (s : String) (e : ParsedExpense) (m : RawMatch) (suf : List Char),
      parseExpense s = some e →
      matchRegex (preprocess s.toList) = some m →
      m.tail.suffix = some suf → m.tail.remainder = none →
      hasSep m.tail.amountStr = true →
      ∃ b, jsParseFloat (if thousandsShape m.tail.amountStr then
          stripSeps m.tail.amountStr else commasToDots m.tail.amountStr) = some b ∧
        e.amount = jsMulConst (suffixMult (some (toLowerL suf))) b) ∧
    (∀ (s : String) (e : ParsedExpense) (m : RawMatch),
      parseExpense s = some e →
      matchRegex (preprocess s.toList) = some m →
      m.tail.suffix = none →
      ∃ b, jsParseFloat (stripSeps m.tail.amountStr) = some b ∧ e.amount = b) ∧
    parseExpense "siêu thị 1.2tr" =
      some ⟨"Siêu thị".toList, JsNum.fin 1200000, none, EntryType.expense⟩ ∧
    parseExpense "chi tiêu 2.839.000" =
      some ⟨"Chi tiêu".toList, JsNum.fin 2839000, none, EntryType.expense⟩ := by
  refine ⟨?_, ?_, ?_, ?_⟩
  · intro s e m suf he hm hsuf hrem hsep
    obtain ⟨m', a, hm', -, -, ha, rfl⟩ := parseExpenseL_some he
    rw [hm] at hm'
    cases Option.some.inj hm'
    rw [hsuf, hrem, Option.map_some'] at ha
    rw [resolveAmount_spec] at ha
    rw [Option.map_eq_some'] at ha
    obtain ⟨b, hb, hba⟩ := ha
    have hbase : resolveBase m.tail.amountStr (some (toLowerL suf)).isSome none =
        jsParseFloat (if thousandsShape m.tail.amountStr then
          stripSeps m.tail.amountStr else commasToDots m.tail.amountStr) := by
      unfold resolveBase resolveBaseD jsParseFloat
      simp only [Option.isSome_some, true_and, hsep, if_true]
      split <;> rfl
    rw [hbase] at hb
    exact ⟨b, hb, by simp [← hba]⟩
  · intro s e m he hm hsuf
    obtain ⟨m', a, hm', -, -, ha, rfl⟩ := parseExpenseL_some he
    rw [hm] at hm'
    cases Option.some.inj hm'
    rw [hsuf, Option.map_none'] at ha
    unfold resolveAmount at ha
    rw [Option.map_eq_some'] at ha
    obtain ⟨d, hd, hda⟩ := ha
    have hbase : resolveBaseD m.tail.amountStr (none : Option (List Char)).isSome
        m.tail.remainder = jsParseFloatD (stripSeps m.tail.amountStr) := by
      unfold resolveBaseD
      simp only [Option.isSome_none, Bool.false_eq_true, false_and, if_false]
      cases m.tail.remainder <;> simp
    rw [hbase] at hd
    refine ⟨mkJsNum d, ?_, ?_⟩
    · unfold jsParseFloat
      rw [hd, Option.map_some']
    · simp only [← hda, suffixMultN, Nat.mul_one]
  · rw [show parseExpense "siêu thị 1.2tr" =
        some ⟨"Siêu thị".toList, JsNum.fin (decToQ ⟨12000000, 1⟩), none,
          EntryType.expense⟩ from rfl,
      show decToQ ⟨12000000, 1⟩ = 1200000 from by norm_num [decToQ]]
  · rw [show parseExpense "chi tiêu 2.839.000" =
        some ⟨"Chi tiêu".toList, JsNum.fin (decToQ ⟨2839000, 0⟩), none,
          EntryType.expense⟩ from rfl,
      show decToQ ⟨2839000, 0⟩ = 2839000 from by norm_num [decToQ]]

/-- C4 (witness): the no-suffix part applied to the concrete parse of
`chi tiêu 2.839.000`. -/
theorem c4_separator_disambiguation_witness :
    ∃ b, jsParseFloat (stripSeps "2.839.000".toList) = some b ∧
      (⟨"Chi tiêu".toList, JsNum.fin (decToQ ⟨2839000, 0⟩), none,
        EntryType.expense⟩ : ParsedExpense).amount = b :=
  c4_separator_disambiguation.2.1 "chi tiêu 2.839.000"
    ⟨"Chi tiêu".toList, JsNum.fin (decToQ ⟨2839000, 0⟩), none, EntryType.expense⟩
    ⟨"chi tiêu".toList, ⟨"2.839.000".toList, none, none, none⟩⟩
    rfl rfl rfl

/-! ### Claim C5 -/

/-- C5: the composer scans the supplied rows from the last element backward
and takes the first row whose first cell matches `DD/MM/YYYY` as the last
known date header; when that header equals today's date string, the output
is exactly one data row — no spacer, no header — in both layout variants. -/
theorem c5_backward_scan_dedup :
    (∀ (vs rest : List (List String)) (c : String) (others : List String),
      isDateHeaderCell c = true →
      (∀ r ∈ rest, headerCellOf r = none) →
      lastDateHeaderOpt (vs ++ (c :: others) :: rest) = some c) ∧
    (∀ (values : List (List String)) (todayStr category amountFmt : String)
      (note : Option String),
      lastDateHeaderOpt values = some todayStr →
      composeRows3 values todayStr category amountFmt note =
        [[category, amountFmt, note.getD ""]]) ∧
    (∀ (values : List (List String)) (todayStr category : String) (amount : JsNum)
      (ty : EntryType) (note : Option String),
      lastDateHeaderOpt values = some todayStr →
      composeRows4 values todayStr category amount ty note =
        [if ty = EntryType.expense then
          [Cell.str category, Cell.num amount, Cell.str "", Cell.str (note.getD "")]
        else
          [Cell.str category, Cell.str "", Cell.num amount, Cell.str (note.getD "")]]) := by
  refine ⟨fun vs rest c others hc hrest => lastDateHeaderOpt_append_last hc hrest, ?_, ?_⟩
  · intro values todayStr category amountFmt note h
    unfold composeRows3
    rw [h]
    simp
  · intro values todayStr category amount ty note h
    unfold composeRows4
    rw [h]
    simp

/-- C5 (witness): the scan and the dedup behaviour at a concrete window
whose last row is a header for today. -/
theorem c5_backward_scan_dedup_witness :
    composeRows3 [["05/02/2026", "", ""]] "05/02/2026" "Cat" "157.000" none
      = [["Cat", "157.000", ""]] :=
  c5_backward_scan_dedup.2.1 [["05/02/2026", "", ""]] "05/02/2026" "Cat" "157.000" none
    (by decide)

/-! ### Claim C6 -/

/-- C6: when the composer emits a new-day header (the last known header
differs from today, or none exists), the header is preceded by exactly one
all-empty spacer row if and only if the supplied window is non-empty; with
an empty window the output is exactly header then data row.  Stated for a
well-formed `todayStr` (matching `DD/MM/YYYY`), in both layout variants. -/
theorem c6_spacer_before_header (values : List (List String)) (todayStr : String)
    (htoday : isDateHeaderCell todayStr = true)
    (hdiff : ∀ h, lastDateHeaderOpt values = some h → h ≠ todayStr) :
    (∀ (category amountFmt : String) (note : Option String),
      (values = [] →
        composeRows3 values todayStr category amountFmt note =
          [[todayStr, "", ""], [category, amountFmt, note.getD ""]]) ∧
      (values ≠ [] →
        composeRows3 values todayStr category amountFmt note =
          [["", "", ""], [todayStr, "", ""], [category, amountFmt, note.getD ""]])) ∧
    (∀ (category : String) (amount : JsNum) (ty : EntryType) (note : Option String),
      (values = [] →
        composeRows4 values todayStr category amount ty note =
          [[Cell.str todayStr, Cell.str "", Cell.str "", Cell.str ""],
            if ty = EntryType.expense then
              [Cell.str category, Cell.num amount, Cell.str "", Cell.str (note.getD "")]
            else
              [Cell.str category, Cell.str "", Cell.num amount, Cell.str (note.getD "")]]) ∧
      (values ≠ [] →
        composeRows4 values todayStr category amount ty note =
          [[Cell.str "", Cell.str "", Cell.str "", Cell.str ""],
            [Cell.str todayStr, Cell.str "", Cell.str "", Cell.str ""],
            if ty = EntryType.expense then
              [Cell.str category, Cell.num amount, Cell.str "", Cell.str (note.getD "")]
            else
              [Cell.str category, Cell.str "", Cell.num amount, Cell.str (note.getD "")]])) := by
  have hne : (lastDateHeaderOpt values).getD "" ≠ todayStr := by
    cases hopt : lastDateHeaderOpt values with
    | none =>
      simp only [Option.getD_none]
      exact fun h => isDateHeaderCell_ne_empty htoday h.symm
    | some h => simpa using hdiff h hopt
  constructor
  · intro category amountFmt note
    constructor
    · intro hv
      subst hv
      simp only [composeRows3]
      rw [if_pos hne]
      simp
    · intro hv
      simp only [composeRows3]
      rw [if_pos hne, if_pos (by simpa [List.length_pos] using hv)]
      simp
  · intro category amount ty note
    constructor
    · intro hv
      subst hv
      simp only [composeRows4]
      rw [if_pos hne]
      simp
    · intro hv
      simp only [composeRows4]
      rw [if_pos hne, if_pos (by simpa [List.length_pos] using hv)]
      simp

/-- C6 (witness): an empty window yields exactly header then data row. -/
theorem c6_spacer_before_header_witness :
    composeRows3 [] "05/02/2026" "Cat" "1" none =
      [["05/02/2026", "", ""], ["Cat", "1", ""]] :=
  ((c6_spacer_before_header [] "05/02/2026" (by decide)
    (fun h hh => absurd hh (by simp [lastDateHeaderOpt]))).1 "Cat" "1" none).1 rfl

/-! ### Claim C10 -/

/-- C10: the backward scan classifies a row solely by whether its first
cell matches the date pattern, ignoring the remaining cells; consequently an
ordinary data row whose first cell happens to be a date string is taken as
the current date header, and when it equals today the composer emits no new
header. -/
theorem c10_scan_first_cell_only :
    (∀ (values : List (List String)) (c : String) (others : List String),
      lastDateHeaderOpt (values ++ [c :: others]) =
        if isDateHeaderCell c then some c else lastDateHeaderOpt values) ∧
    (∀ (values : List (List String)) (todayStr : String) (others : List String)
      (category amountFmt : String) (note : Option String),
      isDateHeaderCell todayStr = true →
      composeRows3 (values ++ [todayStr :: others]) todayStr category amountFmt note =
        [[category, amountFmt, note.getD ""]]) ∧
    (∀ (values : List (List String)) (todayStr : String) (others : List String)
      (category : String) (amount : JsNum) (ty : EntryType) (note : Option String),
      isDateHeaderCell todayStr = true →
      composeRows4 (values ++ [todayStr :: others]) todayStr category amount ty note =
        [if ty = EntryType.expense then
          [Cell.str category, Cell.num amount, Cell.str "", Cell.str (note.getD "")]
        else
          [Cell.str category, Cell.str "", Cell.num amount, Cell.str (note.getD "")]]) := by
  refine ⟨lastDateHeaderOpt_concat, ?_, ?_⟩
  · intro values todayStr others category amountFmt note h
    unfold composeRows3
    rw [lastDateHeaderOpt_concat, if_pos h]
    simp
  · intro values todayStr others category amount ty note h
    unfold composeRows4
    rw [lastDateHeaderOpt_concat, if_pos h]
    simp

/-- C10 (witness): a data-shaped row with a date first cell and non-empty
other cells suppresses the new header. -/
theorem c10_scan_first_cell_only_witness :
    composeRows3 ([["x", "1", ""]] ++ [["05/02/2026", "9", "note"]])
      "05/02/2026" "Cat" "1" none = [["Cat", "1", ""]] :=
  c10_scan_first_cell_only.2.1 [["x", "1", ""]] "05/02/2026" ["9", "note"]
    "Cat" "1" none (by decide)

/-! ### Claim C7 -/

/-- C7 (counterexample): the income test of the source accepts any
whitespace character after the marker, not only a space.  The input
`thu<TAB>lương 10tr` parses as income although its trimmed text does not
begin with the case-insensitive prefix `thu ` or `nhận `, contradicting the
claim that every other successfully parsed input is an expense. -/
theorem c7_counterexample :
    parseExpense "thu\tlương 10tr" =
      some ⟨"Lương".toList, JsNum.fin (decToQ ⟨10000000, 0⟩), none, EntryType.income⟩ ∧
    decToQ ⟨10000000, 0⟩ = 10000000 ∧
    beginsWithCI "thu ".toList (trimL "thu\tlương 10tr".toList) = false ∧
    beginsWithCI "nhận ".toList (trimL "thu\tlương 10tr".toList) = false :=
  ⟨rfl, by norm_num [decToQ], rfl, rfl⟩

/-- C7 (amended): an input parses as income exactly when its trimmed text
starts with `thu` or `nhận` (case-insensitively) followed by ANY whitespace
character — a space, as claimed, suffices but is not necessary.  Beginning
with the literal prefixes `thu ` / `nhận ` implies the income test, and
`thu lương 10tr` parses to kind income, amount 10000000, category
`Lương`. -/
theorem c7_income_prefix :
    (∀ (s : String) (e : ParsedExpense),
      parseExpense s = some e →
      (e.type = EntryType.income ↔ incomeTest (trimL s.toList) = true)) ∧
    (∀ l : List Char, beginsWithCI "thu ".toList l = true → incomeTest l = true) ∧
    (∀ l : List Char, beginsWithCI "nhận ".toList l = true → incomeTest l = true) ∧
    parseExpense "thu lương 10tr" =
      some ⟨"Lương".toList, JsNum.fin 10000000, none, EntryType.income⟩ := by
  refine ⟨?_, ?_, ?_, ?_⟩
  · intro s e he
    obtain ⟨m, a, -, -, -, -, rfl⟩ := parseExpenseL_some he
    by_cases hin : incomeTest (trimL s.toList) = true
    · simp [hin]
    · simp only [Bool.not_eq_true] at hin
      simp [hin]
  · intro l h
    rcases l with _ | ⟨c1, _ | ⟨c2, _ | ⟨c3, _ | ⟨c4, rest⟩⟩⟩⟩ <;>
      simp [beginsWithCI, Bool.and_eq_true] at h
    obtain ⟨h1, h2, h3, h4⟩ := h
    have hc4 := jsCanonEq_space h4
    subst hc4
    simp [incomeTest, ciMarkThenWs, h1, h2, h3]
    exact Or.inl (by decide)
  · intro l h
    rcases l with _ | ⟨c1, _ | ⟨c2, _ | ⟨c3, _ | ⟨c4, _ | ⟨c5, rest⟩⟩⟩⟩⟩ <;>
      simp [beginsWithCI, Bool.and_eq_true] at h
    obtain ⟨h1, h2, h3, h4, h5⟩ := h
    have hc5 := jsCanonEq_space h5
    subst hc5
    have : incomeTest (c1 :: c2 :: c3 :: c4 :: ' ' :: rest) =
        (ciMarkThenWs ['t', 'h', 'u'] (c1 :: c2 :: c3 :: c4 :: ' ' :: rest) ||
          ciMarkThenWs ['n', 'h', 'ậ', 'n'] (c1 :: c2 :: c3 :: c4 :: ' ' :: rest)) := rfl
    rw [this]
    simp [ciMarkThenWs, h1, h2, h3, h4]
    exact Or.inr (by decide)
  · rw [show parseExpense "thu lương 10tr" =
        some ⟨"Lương".toList, JsNum.fin (decToQ ⟨10000000, 0⟩), none,
          EntryType.income⟩ from rfl,
      show decToQ ⟨10000000, 0⟩ = 10000000 from by norm_num [decToQ]]

/-- C7 (witness): the income equivalence at the concrete parse of
`thu lương 10tr`. -/
theorem c7_income_prefix_witness :
    (⟨"Lương".toList, JsNum.fin (decToQ ⟨10000000, 0⟩), none,
      EntryType.income⟩ : ParsedExpense).type = EntryType.income ↔
      incomeTest (trimL "thu lương 10tr".toList) = true :=
  c7_income_prefix.1 "thu lương 10tr"
    ⟨"Lương".toList, JsNum.fin (decToQ ⟨10000000, 0⟩), none, EntryType.income⟩ rfl

/-! ### Claim C8 -/

/-- C8: the month-partitioned read/write range of month index `m` spans
column indices `5m` to `5m+3`, and `columnIndexToLetter` renders every
non-negative column index as its standard bijective base-26 letter name:
the rendered name consists of upper-case ASCII letters and its bijective
base-26 value is `index + 1`, with `A`, `Z`, `AA` at indices 0, 25, 26. -/
theorem c8_column_addressing :
    (∀ m : ℕ, getMonthRange m =
      "'1'!" ++ String.mk (columnIndexToLetter (5 * m)) ++ ":" ++
        String.mk (columnIndexToLetter (5 * m + 3))) ∧
    (∀ i : ℕ, letterVal (columnIndexToLetter i) = i + 1) ∧
    (∀ i : ℕ, ∀ c ∈ columnIndexToLetter i, 65 ≤ c.toNat ∧ c.toNat ≤ 90) ∧
    columnIndexToLetter 0 = ['A'] ∧ columnIndexToLetter 25 = ['Z'] ∧
    columnIndexToLetter 26 = ['A', 'A'] := by
  refine ⟨?_, ?_, ?_, by decide, by decide, by decide⟩
  · intro m
    unfold getMonthRange
    rw [Nat.mul_comm m 5]
  · intro i
    exact columnLetterGo_val (i + 1) i (Nat.lt_succ_self i)
  · intro i c hc
    exact columnLetterGo_chars (i + 1) i c hc

/-- C8 (witness): the letter-range fact applied to the first letter of
column 0. -/
theorem c8_column_addressing_witness :
    65 ≤ ('A' : Char).toNat ∧ ('A' : Char).toNat ≤ 90 :=
  c8_column_addressing.2.2.1 0 'A' (by decide)

/-! ### Claim C9 -/

/-- C9: every successfully parsed entry has a non-empty category whose
first character is a fixed point of upper-casing (it is converted to upper
case whenever an upper-case form exists; the rest of the category is
untouched by the capitalisation step). -/
theorem c9_category_capitalized (s : String) (e : ParsedExpense)
    (he : parseExpense s = some e) :
    e.category ≠ [] ∧ ∀ h ∈ e.category.head?, jsUpperChar h = h := by
  obtain ⟨m, a, hm, -, -, -, rfl⟩ := parseExpenseL_some he
  cases hpp : preprocess s.toList with
  | nil =>
    rw [hpp] at hm
    exact absurd hm (by simp [matchRegex])
  | cons c0 rest =>
    rw [hpp] at hm
    obtain ⟨ext, hcat⟩ := matchRegex_category hm
    have hc0 : isJsWs c0 = false := preprocess_head_not_ws hpp
    have htr : trimL (c0 :: ext) = c0 :: trimEndL ext := by
      unfold trimL
      rw [List.dropWhile_cons, if_neg (by simp [hc0])]
      rw [trimEndL_cons_not_ws hc0]
    simp only [hcat, htr]
    constructor
    · simp [jsCapitalize]
    · intro h hh
      simp only [jsCapitalize, List.head?_cons, Option.mem_def, Option.some.injEq] at hh
      rw [← hh]
      exact jsUpperChar_idem c0

/-- C9 (witness): the theorem applied to the concrete parse of
`ăn tối 157k`. -/
theorem c9_category_capitalized_witness :
    (⟨"Ăn tối".toList, JsNum.fin (decToQ ⟨157000, 0⟩), none,
      EntryType.expense⟩ : ParsedExpense).category ≠ [] ∧
    ∀ h ∈ (⟨"Ăn tối".toList, JsNum.fin (decToQ ⟨157000, 0⟩), none,
      EntryType.expense⟩ : ParsedExpense).category.head?, jsUpperChar h = h :=
  c9_category_capitalized "ăn tối 157k"
    ⟨"Ăn tối".toList, JsNum.fin (decToQ ⟨157000, 0⟩), none, EntryType.expense⟩ rfl

end Tiubot
